import Mathlib

/-!
# Verification of the PG_Anlize_Sys acquisition–cache–reconciliation pipeline

A shallow embedding of the core data-pipeline code of the repository
(code identity, daily-bar upsert, persistence reconciliation, source
fallback, batch polling, and the watchlist consistency manager), together
with theorems settling the specification claims about it.

Strings are modelled as `List Char`; the Python string primitives used by
the code (`str.lower`, `str.replace`, `str.startswith`) are embedded
character by character.  Numeric quote fields are modelled as rationals
(the providers serve exact decimal text); Python `int(...)` truncation
toward zero is modelled explicitly.
-/

namespace PGAnlize

/-! ## Python string primitives -/

/-- Python `s.startswith(pat)` on character lists. -/
def startsWith : List Char → List Char → Bool
  | _, [] => true
  | [], _ :: _ => false
  | c :: s, p :: ps => c == p && startsWith s ps

/-- ASCII lower-casing of one character, as Python `str.lower` acts on the
code strings in this repository (they are pure ASCII). -/
def pyLowerChar (c : Char) : Char :=
  if 'A' ≤ c ∧ c ≤ 'Z' then Char.ofNat (c.toNat + 32) else c

/-- ASCII upper-casing of one character (Python `str.upper`). -/
def pyUpperChar (c : Char) : Char :=
  if 'a' ≤ c ∧ c ≤ 'z' then Char.ofNat (c.toNat - 32) else c

/-- Python `s.lower()`. -/
def pyLower (s : List Char) : List Char := s.map pyLowerChar

/-- Python `s.upper()`. -/
def pyUpper (s : List Char) : List Char := s.map pyUpperChar

/-- Fuelled worker for `pyReplace`.  The fuel only ever needs to cover the
length of the string (each step consumes at least one character); keeping
the recursion structural in the fuel keeps the function kernel-reducible. -/
def pyReplaceAux (pat rep : List Char) : Nat → List Char → List Char
  | _, [] => []
  | 0, s => s
  | fuel + 1, c :: rest =>
    if pat ≠ [] ∧ startsWith (c :: rest) pat = true then
      rep ++ pyReplaceAux pat rep fuel ((c :: rest).drop pat.length)
    else
      c :: pyReplaceAux pat rep fuel rest

/-- Python `s.replace(pat, rep)`: replace every non-overlapping occurrence
of `pat` in `s`, scanning left to right.  (All call sites in this
repository use a non-empty `pat`.) -/
def pyReplace (s pat rep : List Char) : List Char :=
  pyReplaceAux pat rep s.length s

/-! ## Code Identity (`src/data_acquisition/deep_analysis_fetcher.py`)

`get_clean_code` is the `normalize` operation of the spec; the
`to_*_code` functions are the provider-specific `toProviderForm`
spellings.  The Python guard `if not stock_code: return ""` is the
identity on the empty string, which is also what the chain of string
operations produces, so it needs no separate branch. -/

/-- `get_clean_code`: strip `sh`/`sz` markers and dots after lower-casing.
Returns the bare numeric code, e.g. `300434`. -/
def get_clean_code (stock_code : List Char) : List Char :=
  pyReplace (pyReplace (pyReplace (pyLower stock_code) ['s', 'h'] []) ['s', 'z'] []) ['.'] []

/-- `get_market_type`: classify the venue from the leading digit
(`6` → `sh`, `0`/`3` → `sz`, `8`/`4` → `bj`, anything else → `sz`). -/
def get_market_type (clean_code : List Char) : List Char :=
  if clean_code.head? = some '6' then ['s', 'h']
  else if clean_code.head? = some '0' ∨ clean_code.head? = some '3' then ['s', 'z']
  else if clean_code.head? = some '8' ∨ clean_code.head? = some '4' then ['b', 'j']
  else ['s', 'z']

/-- `to_baostock_code`: Baostock spelling, e.g. `sz.300434`. -/
def to_baostock_code (stock_code : List Char) : List Char :=
  let clean := get_clean_code stock_code
  get_market_type clean ++ '.' :: clean

/-- `to_tencent_code`: Tencent spelling, e.g. `sz300434`. -/
def to_tencent_code (stock_code : List Char) : List Char :=
  let clean := get_clean_code stock_code
  get_market_type clean ++ clean

/-- `to_eastmoney_web_code`: Eastmoney web spelling, e.g. `SZ300434`. -/
def to_eastmoney_web_code (stock_code : List Char) : List Char :=
  let clean := get_clean_code stock_code
  pyUpper (get_market_type clean) ++ clean

/-- `to_eastmoney_code`: Eastmoney suffixed spelling, e.g. `300434.SZ`. -/
def to_eastmoney_code (stock_code : List Char) : List Char :=
  let clean := get_clean_code stock_code
  clean ++ '.' :: pyUpper (get_market_type clean)

/-- The supported provider spellings of an instrument code: prefixed
lowercase (Tencent/Sina), dotted (Baostock), prefixed uppercase
(Eastmoney web), suffixed (Eastmoney), and the bare numeric form. -/
inductive Provider where
  | baostock
  | tencent
  | eastmoneyWeb
  | eastmoney
  | numeric
  deriving DecidableEq

/-- `toProviderForm`: each provider's expected spelling of a code. -/
def toProviderForm : Provider → List Char → List Char
  | .baostock, s => to_baostock_code s
  | .tencent, s => to_tencent_code s
  | .eastmoneyWeb, s => to_eastmoney_web_code s
  | .eastmoney, s => to_eastmoney_code s
  | .numeric, s => get_clean_code s

/-- `'0' ≤ c ≤ '9'`, the digits that make up a numeric identifier. -/
def isDigitChar (c : Char) : Bool := '0' ≤ c && c ≤ '9'

/-! ## Daily-bar storage (`src/data_storage/crud.py`, `models.py`)

A row of the `stock_daily_kline` table.  The composite primary key is
`(time, code)`; `time` is the normalized trading-day timestamp, modelled
as a day index.  Prices are rationals (SQL floats hold the exact decimal
values the pipeline feeds them); `volume` is a `BIGINT`. -/

structure KlineRow where
  time : Nat
  code : String
  open_px : ℚ
  high : ℚ
  low : ℚ
  close : ℚ
  volume : ℤ
  turnover : ℚ
  deriving DecidableEq

/-- Two rows collide on the composite primary key `(time, code)`. -/
def sameKey (a b : KlineRow) : Bool := a.time == b.time && a.code == b.code

/-- One row of `INSERT ... ON CONFLICT (time, code) DO UPDATE SET open =
excluded.open, ...`: on a key collision overwrite
open/high/low/close/volume/turnover with the incoming values, otherwise
insert the row. -/
def upsertRow (table : List KlineRow) (r : KlineRow) : List KlineRow :=
  if table.any (fun t => sameKey t r) then
    table.map (fun t =>
      if sameKey t r then
        { t with open_px := r.open_px, high := r.high, low := r.low,
                 close := r.close, volume := r.volume, turnover := r.turnover }
      else t)
  else table ++ [r]

/-- `bulk_upsert_daily_kline`: upsert a batch of rows into the table. -/
def bulk_upsert_daily_kline (table : List KlineRow) (kline_data : List KlineRow) : List KlineRow :=
  kline_data.foldl upsertRow table

/-! ## Persistence reconciler (`src/data_storage/persistence_service.py`) -/

/-- Python `int(x)` on a numeric value: truncation toward zero. -/
def pyInt (q : ℚ) : ℤ := q.num.tdiv q.den

/-- A quote value drained from the Cache (the JSON object the realtime
fetcher stored under a `quote:*` key), with its timestamp already split
into the trading day and the time of day within it. -/
structure CachedQuote where
  day : Nat
  secondsOfDay : Nat
  code : String
  open_px : ℚ
  high : ℚ
  low : ℚ
  price : ℚ
  volume : ℚ
  turnover : ℚ
  deriving DecidableEq

/-- The per-snapshot mapping of `sync_to_db`: `trade_dt.normalize()`
truncates the timestamp to the trading day (`time` keeps only `day`,
the time of day is discarded), the latest price becomes `close`, and
`volume` goes through `int(float(...))`. -/
def toKlineItem (q : CachedQuote) : KlineRow :=
  { time := q.day
    code := q.code
    open_px := q.open_px
    high := q.high
    low := q.low
    close := q.price
    volume := pyInt q.volume
    turnover := q.turnover }

/-- One value returned by the bulk Cache read in `sync_to_db`: the key may
have expired between `keys` and `mget` (`nullVal`, the `if not v` guard),
the stored string may fail JSON decoding / field extraction / numeric
conversion (`malformed`, the bare `except: continue`), or it parses into
a quote. -/
inductive CacheValue where
  | nullVal
  | malformed
  | quote (q : CachedQuote)
  deriving DecidableEq

/-- The record loop of `sync_to_db`: build `kline_data`, skipping null
and malformed values. -/
def syncRows (values : List CacheValue) : List KlineRow :=
  values.foldl (fun kline_data v =>
    match v with
    | .nullVal => kline_data
    | .malformed => kline_data
    | .quote q => kline_data ++ [toKlineItem q]) []

/-- `sync_to_db`: drain the Cache quote values and upsert the mapped rows
into the daily-kline table in one batch. -/
def sync_to_db (values : List CacheValue) (table : List KlineRow) : List KlineRow :=
  if values = [] then table
  else
    let kline_data := syncRows values
    if kline_data = [] then table
    else bulk_upsert_daily_kline table kline_data

/-! ## Sina batch adapter (`src/data_acquisition/realtime_fetcher.py`) -/

/-- One `~`-free wire field of a Sina quote line, holding the raw text and
the result of Python `float(raw)` (`none` when `float` raises). -/
structure FieldTok where
  raw : String
  val : Option ℚ
  deriving DecidableEq

/-- One line of a Sina batch response, after the slicing done by
`_fetch_batch_sina` (`line[11:eq_idx]` for the prefixed code and the
comma-split payload).  `emptyData` marks blank lines and lines whose
payload is empty (the `if not line or '=""' in line` guard). -/
structure SinaLine where
  emptyData : Bool
  codeWithPrefix : String
  fields : List FieldTok
  deriving DecidableEq

/-- Field access followed by `float(...)`: fails when the index is out of
range (IndexError) or the text does not parse (ValueError). -/
def tokNum (l : SinaLine) (i : Nat) : Option ℚ := (l.fields.get? i).bind (fun t => t.val)

/-- Field access used as raw text: fails only when the index is out of range. -/
def tokRaw (l : SinaLine) (i : Nat) : Option String := (l.fields.get? i).map (fun t => t.raw)

/-- Round half to even, as Python's `round`. -/
def roundHalfEven (q : ℚ) : ℤ :=
  if q - ⌊q⌋ < 1 / 2 then ⌊q⌋
  else if q - ⌊q⌋ > 1 / 2 then ⌊q⌋ + 1
  else if 2 ∣ ⌊q⌋ then ⌊q⌋ else ⌊q⌋ + 1

/-- Python `round(x, 2)`. -/
def pyRound2 (q : ℚ) : ℚ := (roundHalfEven (q * 100) : ℚ) / 100

/-- The parsed per-instrument dict built by `_fetch_batch_sina`. -/
structure SinaItem where
  code : String
  name : String
  price : ℚ
  open_px : ℚ
  pre_close : ℚ
  high : ℚ
  low : ℚ
  volume : ℚ
  turnover : ℚ
  time : String
  bid1_vol : ℚ
  bid1 : ℚ
  bid2_vol : ℚ
  bid2 : ℚ
  bid3_vol : ℚ
  bid3 : ℚ
  bid4_vol : ℚ
  bid4 : ℚ
  bid5_vol : ℚ
  bid5 : ℚ
  ask1_vol : ℚ
  ask1 : ℚ
  ask2_vol : ℚ
  ask2 : ℚ
  ask3_vol : ℚ
  ask3 : ℚ
  ask4_vol : ℚ
  ask4 : ℚ
  ask5_vol : ℚ
  ask5 : ℚ
  change_pct : ℚ
  deriving DecidableEq

/-- The suffixed code built by `_fetch_batch_sina`:
`code_with_prefix[2:] + ('.SH' if code_with_prefix.startswith('sh') else '.SZ')`. -/
def sinaSuffixedCode (codeWithPrefix : String) : String :=
  (codeWithPrefix.drop 2) ++ (if codeWithPrefix.startsWith "sh" then ".SH" else ".SZ")

/-- The wire-field indices the line parser converts with `float(...)`:
1–5 (open/pre-close/price/high/low), 8–9 (volume/turnover) and 10–29 (the
five bid/ask levels). -/
def sinaNumIdx : List Nat :=
  [1, 2, 3, 4, 5, 8, 9, 10, 11, 12, 13, 14, 15, 16, 17, 18, 19,
   20, 21, 22, 23, 24, 25, 26, 27, 28, 29]

/-- Every access performed by the `try` body of the line loop succeeds:
indices up to 31 exist (fields 30/31 are the date and time strings) and
every numeric field parses.  In Python the body fails at its first bad
access; since any failure means the same thing — the record is skipped —
checking them all up front is equivalent. -/
def lineOk (l : SinaLine) : Bool :=
  32 ≤ l.fields.length && sinaNumIdx.all (fun i => (tokNum l i).isSome)

/-- `tokNum` with a default, for reading a field the guard has already
checked. -/
def tokNumD (l : SinaLine) (i : Nat) : ℚ := (tokNum l i).getD 0

/-- `tokRaw` with a default, for reading a field the guard has already
checked. -/
def tokRawD (l : SinaLine) (i : Nat) : String := (tokRaw l i).getD ""

/-- The per-line body of `_fetch_batch_sina`.  A `none` result is a line
that was skipped: the explicit `continue` guards (empty payload, fewer
than 30 fields) and every failure of the `try` body (an out-of-range
field access or a failed `float(...)`), which the bare `except` turns
into a skip. -/
def parseSinaLine (l : SinaLine) : Option SinaItem :=
  if l.emptyData then none
  else if l.fields.length < 30 then none
  else if lineOk l then
    some
      { code := sinaSuffixedCode l.codeWithPrefix
        name := tokRawD l 0
        price := tokNumD l 3
        open_px := tokNumD l 1
        pre_close := tokNumD l 2
        high := tokNumD l 4
        low := tokNumD l 5
        volume := tokNumD l 8
        turnover := tokNumD l 9
        time := tokRawD l 30 ++ " " ++ tokRawD l 31
        bid1_vol := tokNumD l 10, bid1 := tokNumD l 11
        bid2_vol := tokNumD l 12, bid2 := tokNumD l 13
        bid3_vol := tokNumD l 14, bid3 := tokNumD l 15
        bid4_vol := tokNumD l 16, bid4 := tokNumD l 17
        bid5_vol := tokNumD l 18, bid5 := tokNumD l 19
        ask1_vol := tokNumD l 20, ask1 := tokNumD l 21
        ask2_vol := tokNumD l 22, ask2 := tokNumD l 23
        ask3_vol := tokNumD l 24, ask3 := tokNumD l 25
        ask4_vol := tokNumD l 26, ask4 := tokNumD l 27
        ask5_vol := tokNumD l 28, ask5 := tokNumD l 29
        change_pct :=
          if tokNumD l 2 > 0 then
            pyRound2 ((tokNumD l 3 - tokNumD l 2) / tokNumD l 2 * 100)
          else 0 }
  else none

/-- The line loop of `_fetch_batch_sina`: accumulate the parsed records,
skipping each line whose parse fails. -/
def fetchBatchSina (lines : List SinaLine) : List SinaItem :=
  lines.foldl (fun results line =>
    match parseSinaLine line with
    | some item => results ++ [item]
    | none => results) []

/-! ## Fallback orchestrator

The ordered-fallback pattern shared by `update_stock_list_to_db`
(Baostock, then the local CSV), `fetch_stock_news` and `fetch_top_holders`
(Akshare, then an Eastmoney HTTP endpoint): each source is tried in
priority order inside its own `try`, a source that raises or produces an
empty result falls through to the next one, and when every source has
failed or come back empty the function returns an empty result instead of
raising.  An adapter outcome is `Except.error` for a raised/logged failure
and `Except.ok` with the record list otherwise. -/

def fallbackExecute {α : Type} : List (Except Unit (List α)) → List α
  | [] => []
  | .error _ :: rest => fallbackExecute rest
  | .ok l :: rest => if l.isEmpty then fallbackExecute rest else l

/-! ## Batch realtime poller (`src/data_acquisition/realtime_fetcher.py`) -/

/-- `for i in range(0, total_stocks, BATCH_SIZE): batch = codes[i:i+BATCH_SIZE]`
with `BATCH_SIZE = 80`, as successive take/drop slices (fuelled to stay
kernel-reducible; the fuel only needs to cover the list length). -/
def makeChunksAux : Nat → List String → List (List String)
  | _, [] => []
  | 0, _ => []
  | fuel + 1, codes => codes.take 80 :: makeChunksAux fuel (codes.drop 80)

def makeChunks (codes : List String) : List (List String) :=
  makeChunksAux codes.length codes

/-- The chunk loop of `fetch_realtime_quotes`: each batch request runs in
its own `try`; a batch that raises is logged and skipped (`continue`) and
the cycle goes on with the remaining batches. -/
def fetch_realtime_quotes (all_stock_codes : List String)
    (fetchBatch : List String → Except Unit (List SinaItem)) : List SinaItem :=
  (makeChunks all_stock_codes).foldl (fun all_data batch =>
    match fetchBatch batch with
    | .ok data => all_data ++ data
    | .error _ => all_data) []

/-- `_push_to_redis`: write every snapshot under its `quote:<code>` key
(whole-value overwrite; the TTL is not modelled, no claim mentions it). -/
def pushToRedis (snaps : List SinaItem) (cache : String → Option SinaItem) :
    String → Option SinaItem :=
  snaps.foldl (fun c item => fun k => if k = "quote:" ++ item.code then some item else c k) cache

/-- One poll cycle including the Cache write: if the cycle produced no
data at all it only logs and skips the push. -/
def pollCycle (all_stock_codes : List String)
    (fetchBatch : List String → Except Unit (List SinaItem))
    (cache : String → Option SinaItem) : String → Option SinaItem :=
  let all_data := fetch_realtime_quotes all_stock_codes fetchBatch
  if all_data = [] then cache else pushToRedis all_data cache

/-! ## Universe refresh (`RealtimeDataFetcher._refresh_stock_list`) -/

/-- The admission loop over `df['code']`: identifiers starting with `6`
get an `sh` marker, `0`/`3` get `sz`, every other leading digit (the
Beijing venue's `4`/`8` among them) is skipped. -/
def refreshStockList (dfCodes : List (List Char)) : List (List Char) :=
  dfCodes.foldl (fun codes code =>
    if code.head? = some '6' then codes ++ [['s', 'h'] ++ code]
    else if code.head? = some '0' ∨ code.head? = some '3' then codes ++ [['s', 'z'] ++ code]
    else codes) []

/-- The hard-coded backup list used when the universe fetch fails and no
previous universe is cached. -/
def backupCodes : List (List Char) :=
  [String.toList "sh600519", String.toList "sz000001",
   String.toList "sz300750", String.toList "sh601318"]

/-- `_refresh_stock_list` including its failure branch: on a fetch error
the previous universe is kept, or the backup list is installed when there
is none. -/
def refreshStockListResult (fetched : Except Unit (List (List Char)))
    (prev : List (List Char)) : List (List Char) :=
  match fetched with
  | .ok dfCodes => refreshStockList dfCodes
  | .error _ => if prev = [] then backupCodes else prev

/-! ## Watchlist consistency manager (`src/data_storage/watchlist_manager.py`) -/

/-- The two stores the watchlist manager keeps consistent: the durable
`user_watchlist` table (source of truth) and the Redis membership set
under `user:watchlist`.  Both are modelled as duplicate-free code lists. -/
structure WatchlistState where
  db : List String
  cache : List String
  deriving DecidableEq

/-- Redis `SADD` of one member. -/
def sadd (s : List String) (code : String) : List String :=
  if code ∈ s then s else s ++ [code]

/-- Redis `SADD key *codes`. -/
def saddAll (s : List String) (codes : List String) : List String :=
  codes.foldl sadd s

/-- `add_watchlist_item`: `INSERT ... ON CONFLICT (code) DO NOTHING`. -/
def add_watchlist_item (db : List String) (code : String) : List String :=
  if code ∈ db then db else db ++ [code]

/-- `add_stock` with injected failure outcomes for the two stores:
a durable write that raises is rolled back (`dbOk = false`, state
unchanged, returns `false`); only after durable success is the Cache
touched, and a Cache failure still returns `true` (the DB has the data,
resync will repair). -/
def add_stock (st : WatchlistState) (stock_code : String) (dbOk cacheOk : Bool) :
    WatchlistState × Bool :=
  if stock_code = "" then (st, false)
  else if dbOk = false then (st, false)
  else
    let st' := { st with db := add_watchlist_item st.db stock_code }
    if cacheOk = false then (st', true)
    else ({ st' with cache := sadd st'.cache stock_code }, true)

/-- `get_watchlist` (cache-aside with read-repair): return the Cache set
when non-empty; otherwise read the durable store, backfill the Cache when
it has rows, and return them. -/
def get_watchlist (st : WatchlistState) : WatchlistState × List String :=
  if st.cache ≠ [] then (st, st.cache)
  else if st.db ≠ [] then ({ st with cache := saddAll st.cache st.db }, st.db)
  else (st, [])

/-- `_sync_from_db`, run by the constructor on every startup: clear the
Cache key and refill it from the durable store (delete + `SADD *codes`
in one pipeline), or just clear it when the store is empty. -/
def sync_from_db (st : WatchlistState) : WatchlistState :=
  if st.db ≠ [] then { st with cache := saddAll [] st.db }
  else { st with cache := [] }

/-- A process restart: the in-process view of the Cache is rebuilt by the
constructor, which runs `_sync_from_db`; `cacheAtRestart` is whatever the
ephemeral store holds when the process comes back (the claim's scenario
clears it). -/
def restart (db : List String) (cacheAtRestart : List String) : WatchlistState :=
  sync_from_db { db := db, cache := cacheAtRestart }

/-! ## String-primitive lemmas -/

theorem startsWith_append_self (pat s : List Char) :
    startsWith (pat ++ s) pat = true := by
  induction pat with
  | nil => cases s <;> rfl
  | cons p ps ih => simp [startsWith, ih]

theorem startsWith_cons_of_ne {c p : Char} (h : c ≠ p) (s ps : List Char) :
    startsWith (c :: s) (p :: ps) = false := by
  simp [startsWith, h]

theorem pyReplaceAux_nil (pat rep : List Char) (f : Nat) :
    pyReplaceAux pat rep f [] = [] := by
  cases f <;> rfl

theorem pyReplaceAux_cons_neg (pat rep : List Char) (f : Nat) (c : Char)
    (rest : List Char) (h : startsWith (c :: rest) pat = false) :
    pyReplaceAux pat rep (f + 1) (c :: rest) = c :: pyReplaceAux pat rep f rest := by
  simp [pyReplaceAux, h]

/-- The result of `pyReplaceAux` does not depend on the fuel, as long as the
fuel covers the length of the string. -/
theorem pyReplaceAux_fuel_irrel (pat rep : List Char) :
    ∀ f₁ : Nat, ∀ f₂ : Nat, ∀ s : List Char,
      s.length ≤ f₁ → s.length ≤ f₂ →
      pyReplaceAux pat rep f₁ s = pyReplaceAux pat rep f₂ s := by
  intro f₁
  induction f₁ with
  | zero =>
    intro f₂ s h₁ _
    have hs : s = [] := List.length_eq_zero.mp (Nat.le_zero.mp h₁)
    subst hs
    simp [pyReplaceAux_nil]
  | succ a ih =>
    intro f₂ s h₁ h₂
    cases s with
    | nil => simp [pyReplaceAux_nil]
    | cons c rest =>
      cases f₂ with
      | zero => exact absurd h₂ (by simp)
      | succ b =>
        by_cases hcond : pat ≠ [] ∧ startsWith (c :: rest) pat = true
        · have hplen : 1 ≤ pat.length := by
            cases pat with
            | nil => exact absurd rfl hcond.1
            | cons _ _ => simp
          have hdlen : ((c :: rest).drop pat.length).length ≤ rest.length := by
            simp only [List.length_drop, List.length_cons]
            omega
          have hrest : rest.length ≤ a := by
            simpa using Nat.le_of_succ_le_succ h₁
          have hrest' : rest.length ≤ b := by
            simpa using Nat.le_of_succ_le_succ h₂
          simp only [pyReplaceAux, if_pos hcond]
          rw [ih b _ (le_trans hdlen hrest) (le_trans hdlen hrest')]
        · have hrest : rest.length ≤ a := by
            simpa using Nat.le_of_succ_le_succ h₁
          have hrest' : rest.length ≤ b := by
            simpa using Nat.le_of_succ_le_succ h₂
          simp only [pyReplaceAux, if_neg hcond]
          rw [ih b rest hrest hrest']

/-- If the head character of the pattern never occurs in `s`, `pyReplaceAux`
leaves `s` unchanged (for any fuel). -/
theorem pyReplaceAux_no_occ (p : Char) (ps rep : List Char) :
    ∀ s : List Char, ∀ f : Nat, p ∉ s → pyReplaceAux (p :: ps) rep f s = s := by
  intro s
  induction s with
  | nil => intro f _; exact pyReplaceAux_nil _ _ _
  | cons c rest ih =>
    intro f h
    have hcp : c ≠ p := fun hc => h (by simp [hc])
    have hrest : p ∉ rest := fun hr => h (by simp [hr])
    cases f with
    | zero => rfl
    | succ g =>
      rw [pyReplaceAux_cons_neg _ _ _ _ _ (startsWith_cons_of_ne hcp _ _)]
      rw [ih g hrest]

theorem pyReplace_no_occ {p : Char} {s : List Char} (ps rep : List Char)
    (h : p ∉ s) : pyReplace s (p :: ps) rep = s :=
  pyReplaceAux_no_occ p ps rep s s.length h

/-- Stripping a leading occurrence of the pattern. -/
theorem pyReplaceAux_strip (p : Char) (ps rep s : List Char) :
    ∀ f : Nat, ((p :: ps) ++ s).length ≤ f →
      pyReplaceAux (p :: ps) rep f ((p :: ps) ++ s) =
        rep ++ pyReplaceAux (p :: ps) rep s.length s := by
  intro f hf
  simp only [List.length_append, List.length_cons] at hf
  cases f with
  | zero => omega
  | succ g =>
    have hsw : startsWith (p :: (ps ++ s)) (p :: ps) = true := by
      simpa using startsWith_append_self (p :: ps) s
    have hdrop : (ps ++ s).drop ps.length = s := List.drop_left ps s
    show pyReplaceAux (p :: ps) rep (g + 1) (p :: (ps ++ s)) = _
    simp only [pyReplaceAux]
    rw [if_pos ⟨by simp, hsw⟩]
    simp only [List.length_cons, List.drop_succ_cons, hdrop]
    congr 1
    exact pyReplaceAux_fuel_irrel _ _ g s.length s (by omega) le_rfl

theorem pyReplace_strip (p : Char) (ps rep s : List Char) :
    pyReplace ((p :: ps) ++ s) (p :: ps) rep = rep ++ pyReplace s (p :: ps) rep :=
  pyReplaceAux_strip p ps rep s _ le_rfl

/-- A match can only start at an occurrence of the head of the pattern, so a
head-free initial segment passes through `pyReplaceAux` untouched. -/
theorem pyReplaceAux_split (p : Char) (ps rep : List Char) :
    ∀ s₁ s₂ : List Char, ∀ f : Nat, p ∉ s₁ → (s₁ ++ s₂).length ≤ f →
      pyReplaceAux (p :: ps) rep f (s₁ ++ s₂) =
        s₁ ++ pyReplaceAux (p :: ps) rep (f - s₁.length) s₂ := by
  intro s₁
  induction s₁ with
  | nil => intro s₂ f _ _; simp
  | cons c t ih =>
    intro s₂ f h hf
    have hcp : c ≠ p := fun hc => h (by simp [hc])
    have ht : p ∉ t := fun hr => h (by simp [hr])
    have hlen : (t ++ s₂).length + 1 ≤ f := by
      simpa [List.length_append] using hf
    cases f with
    | zero => omega
    | succ g =>
      show pyReplaceAux (p :: ps) rep (g + 1) (c :: (t ++ s₂)) = _
      rw [pyReplaceAux_cons_neg _ _ _ _ _ (startsWith_cons_of_ne hcp _ _)]
      rw [ih s₂ g ht (by omega)]
      simp [Nat.succ_sub_succ]

theorem pyReplace_split (p : Char) (ps rep s₁ s₂ : List Char) (h : p ∉ s₁) :
    pyReplace (s₁ ++ s₂) (p :: ps) rep = s₁ ++ pyReplace s₂ (p :: ps) rep := by
  have := pyReplaceAux_split p ps rep s₁ s₂ (s₁ ++ s₂).length h le_rfl
  rw [pyReplace, this, pyReplace]
  congr 1
  exact pyReplaceAux_fuel_irrel _ _ _ _ _ (by simp [List.length_append]) le_rfl

/-- With an empty replacement, every character of the output was a character
of the input. -/
theorem pyReplaceAux_subset (pat : List Char) :
    ∀ f : Nat, ∀ s : List Char, pyReplaceAux pat [] f s ⊆ s := by
  intro f
  induction f with
  | zero =>
    intro s
    cases s <;> simp [pyReplaceAux_nil, pyReplaceAux]
  | succ g ih =>
    intro s
    cases s with
    | nil => simp [pyReplaceAux_nil]
    | cons c rest =>
      by_cases hcond : pat ≠ [] ∧ startsWith (c :: rest) pat = true
      · simp only [pyReplaceAux, if_pos hcond, List.nil_append]
        exact (ih _).trans (List.drop_subset _ _)
      · simp only [pyReplaceAux, if_neg hcond]
        intro x hx
        rcases List.mem_cons.mp hx with h | h
        · simp [h]
        · exact List.mem_cons_of_mem _ (ih rest h)

theorem pyReplace_subset (pat s : List Char) : pyReplace s pat [] ⊆ s :=
  pyReplaceAux_subset pat s.length s

theorem pyLowerChar_digit {c : Char} (h : isDigitChar c = true) :
    pyLowerChar c = c := by
  have h9 : c ≤ '9' := by
    have := (Bool.and_eq_true _ _).mp h
    exact decide_eq_true_eq.mp this.2
  rw [pyLowerChar, if_neg]
  rintro ⟨hA, _⟩
  exact absurd (le_trans hA h9) (by decide)

theorem pyLower_digits {s : List Char} (h : ∀ c ∈ s, isDigitChar c = true) :
    pyLower s = s := by
  induction s with
  | nil => rfl
  | cons c rest ih =>
    simp only [pyLower, List.map_cons]
    rw [pyLowerChar_digit (h c (by simp))]
    have := ih (fun x hx => h x (by simp [hx]))
    simpa [pyLower] using this

theorem not_mem_of_digits {s : List Char} {p : Char}
    (h : ∀ c ∈ s, isDigitChar c = true) (hp : isDigitChar p = false) : p ∉ s := by
  intro hmem
  rw [h p hmem] at hp
  exact Bool.true_eq_false.mp hp

/-- On an all-digit string, `get_clean_code` is the identity. -/
theorem get_clean_code_digits {s : List Char}
    (h : ∀ c ∈ s, isDigitChar c = true) : get_clean_code s = s := by
  rw [get_clean_code, pyLower_digits h]
  rw [pyReplace_no_occ _ _ (not_mem_of_digits h (by decide))]
  rw [pyReplace_no_occ _ _ (not_mem_of_digits h (by decide))]
  rw [pyReplace_no_occ _ _ (not_mem_of_digits h (by decide))]

theorem pyReplace_cons_of_no_match (pat rep : List Char) (c : Char)
    (rest : List Char) (h : startsWith (c :: rest) pat = false) :
    pyReplace (c :: rest) pat rep = c :: pyReplace rest pat rep := by
  rw [pyReplace, pyReplace, List.length_cons]
  exact pyReplaceAux_cons_neg pat rep rest.length c rest h

theorem pyReplace_nil (pat rep : List Char) : pyReplace [] pat rep = [] := rfl

theorem s_not_mem_digits {c : List Char}
    (hd : ∀ ch ∈ c, isDigitChar ch = true) : 's' ∉ c :=
  not_mem_of_digits hd (by decide)

theorem dot_not_mem_digits {c : List Char}
    (hd : ∀ ch ∈ c, isDigitChar ch = true) : '.' ∉ c :=
  not_mem_of_digits hd (by decide)

theorem s_not_mem_dot_digits {c : List Char}
    (hd : ∀ ch ∈ c, isDigitChar ch = true) : 's' ∉ '.' :: c := by
  intro h
  rcases List.mem_cons.mp h with h | h
  · exact absurd h (by decide)
  · exact s_not_mem_digits hd h

theorem s_not_mem_digits_dot {c : List Char}
    (hd : ∀ ch ∈ c, isDigitChar ch = true) : 's' ∉ c ++ ['.'] := by
  intro h
  rcases List.mem_append.mp h with h | h
  · exact s_not_mem_digits hd h
  · simp at h

/-- The replace chain of `get_clean_code` on a lowered `sh`-prefixed code. -/
theorem chain_pre_sh {c : List Char} (hd : ∀ ch ∈ c, isDigitChar ch = true) :
    pyReplace (pyReplace (pyReplace (['s', 'h'] ++ c) ['s', 'h'] []) ['s', 'z'] []) ['.'] [] = c := by
  have h1 : pyReplace (['s', 'h'] ++ c) ['s', 'h'] [] = c := by
    rw [show (['s', 'h'] : List Char) ++ c = ('s' :: ['h']) ++ c from rfl, pyReplace_strip]
    rw [pyReplace_no_occ _ _ (s_not_mem_digits hd), List.nil_append]
  rw [h1, pyReplace_no_occ _ _ (s_not_mem_digits hd),
    pyReplace_no_occ _ _ (dot_not_mem_digits hd)]

/-- The replace chain of `get_clean_code` on a lowered `sz`-prefixed code. -/
theorem chain_pre_sz {c : List Char} (hd : ∀ ch ∈ c, isDigitChar ch = true) :
    pyReplace (pyReplace (pyReplace (['s', 'z'] ++ c) ['s', 'h'] []) ['s', 'z'] []) ['.'] [] = c := by
  have hzc : 's' ∉ 'z' :: c := by
    intro h
    rcases List.mem_cons.mp h with h | h
    · exact absurd h (by decide)
    · exact s_not_mem_digits hd h
  have h1 : pyReplace (['s', 'z'] ++ c) ['s', 'h'] [] = ['s', 'z'] ++ c := by
    show pyReplace ('s' :: 'z' :: c) ['s', 'h'] [] = 's' :: 'z' :: c
    rw [pyReplace_cons_of_no_match _ _ _ _
      (by simp [startsWith, show ('z' == 'h') = false from by decide])]
    rw [pyReplace_no_occ _ _ hzc]
  have h2 : pyReplace (['s', 'z'] ++ c) ['s', 'z'] [] = c := by
    rw [show (['s', 'z'] : List Char) ++ c = ('s' :: ['z']) ++ c from rfl, pyReplace_strip]
    rw [pyReplace_no_occ _ _ (s_not_mem_digits hd), List.nil_append]
  rw [h1, h2, pyReplace_no_occ _ _ (dot_not_mem_digits hd)]

/-- The replace chain of `get_clean_code` on a lowered Baostock `sh.` code. -/
theorem chain_dot_sh {c : List Char} (hd : ∀ ch ∈ c, isDigitChar ch = true) :
    pyReplace (pyReplace (pyReplace (['s', 'h'] ++ '.' :: c) ['s', 'h'] []) ['s', 'z'] []) ['.'] [] = c := by
  have h1 : pyReplace (['s', 'h'] ++ '.' :: c) ['s', 'h'] [] = '.' :: c := by
    rw [show (['s', 'h'] : List Char) ++ '.' :: c = ('s' :: ['h']) ++ ('.' :: c) from rfl,
      pyReplace_strip]
    rw [pyReplace_no_occ _ _ (s_not_mem_dot_digits hd), List.nil_append]
  have h2 : pyReplace ('.' :: c) ['s', 'z'] [] = '.' :: c :=
    pyReplace_no_occ _ _ (s_not_mem_dot_digits hd)
  have h3 : pyReplace ('.' :: c) ['.'] [] = c := by
    rw [show ('.' :: c : List Char) = ('.' :: []) ++ c from rfl, pyReplace_strip]
    rw [pyReplace_no_occ _ _ (dot_not_mem_digits hd), List.nil_append]
  rw [h1, h2, h3]

/-- The replace chain of `get_clean_code` on a lowered Baostock `sz.` code. -/
theorem chain_dot_sz {c : List Char} (hd : ∀ ch ∈ c, isDigitChar ch = true) :
    pyReplace (pyReplace (pyReplace (['s', 'z'] ++ '.' :: c) ['s', 'h'] []) ['s', 'z'] []) ['.'] [] = c := by
  have hzdc : 's' ∉ 'z' :: '.' :: c := by
    intro h
    rcases List.mem_cons.mp h with h | h
    · exact absurd h (by decide)
    · exact s_not_mem_dot_digits hd h
  have h1 : pyReplace (['s', 'z'] ++ '.' :: c) ['s', 'h'] [] = ['s', 'z'] ++ '.' :: c := by
    show pyReplace ('s' :: 'z' :: '.' :: c) ['s', 'h'] [] = 's' :: 'z' :: '.' :: c
    rw [pyReplace_cons_of_no_match _ _ _ _
      (by simp [startsWith, show ('z' == 'h') = false from by decide])]
    rw [pyReplace_no_occ _ _ hzdc]
  have h2 : pyReplace (['s', 'z'] ++ '.' :: c) ['s', 'z'] [] = '.' :: c := by
    rw [show (['s', 'z'] : List Char) ++ '.' :: c = ('s' :: ['z']) ++ ('.' :: c) from rfl,
      pyReplace_strip]
    rw [pyReplace_no_occ _ _ (s_not_mem_dot_digits hd), List.nil_append]
  have h3 : pyReplace ('.' :: c) ['.'] [] = c := by
    rw [show ('.' :: c : List Char) = ('.' :: []) ++ c from rfl, pyReplace_strip]
    rw [pyReplace_no_occ _ _ (dot_not_mem_digits hd), List.nil_append]
  rw [h1, h2, h3]

/-- The replace chain of `get_clean_code` on a lowered Eastmoney `.sh`-suffixed code. -/
theorem chain_suf_sh {c : List Char} (hd : ∀ ch ∈ c, isDigitChar ch = true) :
    pyReplace (pyReplace (pyReplace (c ++ ['.', 's', 'h']) ['s', 'h'] []) ['s', 'z'] []) ['.'] [] = c := by
  have h1 : pyReplace (c ++ ['.', 's', 'h']) ['s', 'h'] [] = c ++ ['.'] := by
    rw [show c ++ (['.', 's', 'h'] : List Char) = (c ++ ['.']) ++ ['s', 'h'] from by simp,
      pyReplace_split _ _ _ _ _ (s_not_mem_digits_dot hd)]
    rw [show pyReplace (['s', 'h'] : List Char) ['s', 'h'] [] = [] from by decide]
    simp
  have h2 : pyReplace (c ++ ['.']) ['s', 'z'] [] = c ++ ['.'] :=
    pyReplace_no_occ _ _ (s_not_mem_digits_dot hd)
  have h3 : pyReplace (c ++ ['.']) ['.'] [] = c := by
    rw [pyReplace_split _ _ _ _ _ (dot_not_mem_digits hd)]
    rw [show pyReplace (['.'] : List Char) ['.'] [] = [] from by decide]
    simp
  rw [h1, h2, h3]

/-- The replace chain of `get_clean_code` on a lowered Eastmoney `.sz`-suffixed code. -/
theorem chain_suf_sz {c : List Char} (hd : ∀ ch ∈ c, isDigitChar ch = true) :
    pyReplace (pyReplace (pyReplace (c ++ ['.', 's', 'z']) ['s', 'h'] []) ['s', 'z'] []) ['.'] [] = c := by
  have h1 : pyReplace (c ++ ['.', 's', 'z']) ['s', 'h'] [] = c ++ ['.', 's', 'z'] := by
    rw [show c ++ (['.', 's', 'z'] : List Char) = (c ++ ['.']) ++ ['s', 'z'] from by simp,
      pyReplace_split _ _ _ _ _ (s_not_mem_digits_dot hd)]
    rw [show pyReplace (['s', 'z'] : List Char) ['s', 'h'] [] = ['s', 'z'] from by decide]
  have h2 : pyReplace (c ++ ['.', 's', 'z']) ['s', 'z'] [] = c ++ ['.'] := by
    rw [show c ++ (['.', 's', 'z'] : List Char) = (c ++ ['.']) ++ ['s', 'z'] from by simp,
      pyReplace_split _ _ _ _ _ (s_not_mem_digits_dot hd)]
    rw [show pyReplace (['s', 'z'] : List Char) ['s', 'z'] [] = [] from by decide]
    simp
  have h3 : pyReplace (c ++ ['.']) ['.'] [] = c := by
    rw [pyReplace_split _ _ _ _ _ (dot_not_mem_digits hd)]
    rw [show pyReplace (['.'] : List Char) ['.'] [] = [] from by decide]
    simp
  rw [h1, h2, h3]

/-- Lower-casing a decorated code: a concrete marker followed by digits. -/
theorem pyLower_concrete_append {c : List Char}
    (hd : ∀ ch ∈ c, isDigitChar ch = true) (m : List Char) :
    pyLower (m ++ c) = pyLower m ++ c := by
  rw [pyLower, List.map_append]
  rw [show (c.map pyLowerChar) = pyLower c from rfl, pyLower_digits hd]
  rfl

/-- Lower-casing a decorated code: digits followed by a concrete marker. -/
theorem pyLower_append_concrete {c : List Char}
    (hd : ∀ ch ∈ c, isDigitChar ch = true) (m : List Char) :
    pyLower (c ++ m) = c ++ pyLower m := by
  rw [pyLower, List.map_append]
  rw [show (c.map pyLowerChar) = pyLower c from rfl, pyLower_digits hd]
  rfl

/-! ## Daily-bar upsert lemmas -/

theorem sameKey_iff {a b : KlineRow} :
    sameKey a b = true ↔ a.time = b.time ∧ a.code = b.code := by
  simp [sameKey]

theorem sameKey_refl (a : KlineRow) : sameKey a a = true := by
  simp [sameKey]

/-- The `DO UPDATE SET` row built from a key collision is exactly the
incoming row: the update overwrites every non-key field and the key
already agrees. -/
theorem overwrite_eq_of_sameKey {t r : KlineRow} (h : sameKey t r = true) :
    ({ t with open_px := r.open_px, high := r.high, low := r.low,
              close := r.close, volume := r.volume, turnover := r.turnover } : KlineRow) = r := by
  obtain ⟨ht, hc⟩ := sameKey_iff.mp h
  cases t
  cases r
  simp_all

theorem sameKey_trans_left {a b r : KlineRow} (hab : sameKey a r = true)
    (hbr : sameKey b r = true) : sameKey a b = true := by
  obtain ⟨h1, h2⟩ := sameKey_iff.mp hab
  obtain ⟨h3, h4⟩ := sameKey_iff.mp hbr
  exact sameKey_iff.mpr ⟨h1.trans h3.symm, h2.trans h4.symm⟩

/-- The update branch does not disturb a row's key. -/
theorem sameKey_overwrite (t r u : KlineRow) :
    sameKey ({ t with open_px := r.open_px, high := r.high, low := r.low,
                      close := r.close, volume := r.volume, turnover := r.turnover } : KlineRow) u
      = sameKey t u := by
  simp [sameKey]

/-- The update branch does not disturb a row's key (right argument). -/
theorem sameKey_overwrite_right (t r u : KlineRow) :
    sameKey u ({ t with open_px := r.open_px, high := r.high, low := r.low,
                        close := r.close, volume := r.volume, turnover := r.turnover } : KlineRow)
      = sameKey u t := by
  simp [sameKey]

/-- A table whose rows have pairwise distinct composite keys. -/
def uniqueKeys (table : List KlineRow) : Prop :=
  table.Pairwise (fun a b => sameKey a b = false)

/-- After one upsert, the rows matching the upserted key are exactly the
incoming row. -/
theorem filter_upsertRow {table : List KlineRow} (r : KlineRow)
    (hu : uniqueKeys table) :
    (upsertRow table r).filter (fun t => sameKey t r) = [r] := by
  rw [upsertRow]
  by_cases hany : table.any (fun t => sameKey t r) = true
  · rw [if_pos hany]
    induction table with
    | nil => simp at hany
    | cons a rest ih =>
      have hpair : ∀ b ∈ rest, sameKey a b = false := (List.pairwise_cons.mp hu).1
      have hrest : uniqueKeys rest := (List.pairwise_cons.mp hu).2
      by_cases ha : sameKey a r = true
      · simp only [List.map_cons, List.filter_cons]
        rw [if_pos ha, overwrite_eq_of_sameKey ha]
        simp only [sameKey_refl, if_pos]
        have hnone : ∀ b ∈ rest, sameKey b r = false := by
          intro b hb
          by_contra hcon
          have hbr : sameKey b r = true := by
            cases hbr : sameKey b r
            · exact absurd hbr hcon
            · rfl
          have : sameKey a b = true := sameKey_trans_left ha hbr
          rw [hpair b hb] at this
          exact Bool.false_ne_true this
        have hfilt : (rest.map (fun t =>
            if sameKey t r then
              { t with open_px := r.open_px, high := r.high, low := r.low,
                       close := r.close, volume := r.volume, turnover := r.turnover }
            else t)).filter (fun t => sameKey t r) = [] := by
          rw [List.filter_eq_nil_iff]
          intro t ht
          obtain ⟨b, hb, rfl⟩ := List.mem_map.mp ht
          rw [if_neg (by rw [hnone b hb]; exact Bool.false_ne_true)]
          rw [hnone b hb]
          exact Bool.false_ne_true
        rw [hfilt]
      · have ha' : sameKey a r = false := by
          cases h : sameKey a r
          · rfl
          · exact absurd h ha
        have hany' : rest.any (fun t => sameKey t r) = true := by
          rcases List.any_eq_true.mp hany with ⟨t, ht, hsk⟩
          rcases List.mem_cons.mp ht with rfl | ht'
          · exact absurd hsk ha
          · exact List.any_eq_true.mpr ⟨t, ht', hsk⟩
        simp only [List.map_cons, List.filter_cons]
        rw [if_neg ha]
        simp only [ha', if_neg Bool.false_ne_true]
        exact ih hrest hany'
  · rw [if_neg hany]
    have hnone : ∀ t ∈ table, sameKey t r = false := by
      intro t ht
      cases h : sameKey t r
      · rfl
      · exact absurd (List.any_eq_true.mpr ⟨t, ht, h⟩) hany
    rw [List.filter_append]
    rw [List.filter_eq_nil_iff.mpr (fun t ht => by rw [hnone t ht]; exact Bool.false_ne_true)]
    simp [sameKey_refl]

/-- Upserting preserves key uniqueness. -/
theorem uniqueKeys_upsertRow {table : List KlineRow} (r : KlineRow)
    (hu : uniqueKeys table) : uniqueKeys (upsertRow table r) := by
  rw [upsertRow]
  by_cases hany : table.any (fun t => sameKey t r) = true
  · rw [if_pos hany]
    rw [uniqueKeys, List.pairwise_map]
    refine hu.imp_of_mem ?_
    intro a b _ _ hab
    by_cases ha : sameKey a r = true <;> by_cases hb : sameKey b r = true
    · exact absurd (sameKey_trans_left ha hb) (by rw [hab]; exact Bool.false_ne_true)
    · rw [if_pos ha, if_neg hb, sameKey_overwrite]
      exact hab
    · rw [if_neg ha, if_pos hb, sameKey_overwrite_right]
      exact hab
    · rw [if_neg ha, if_neg hb]
      exact hab
  · rw [if_neg hany]
    rw [uniqueKeys, List.pairwise_append]
    refine ⟨hu, List.pairwise_singleton _ _, ?_⟩
    intro a ha b hb
    simp only [List.mem_singleton] at hb
    subst hb
    cases h : sameKey a b
    · rfl
    · exact absurd (List.any_eq_true.mpr ⟨a, ha, h⟩) hany


/-! ## Claim C1 -/

/-- The two conflicting bars used to witness claim C1: same `(time, code)`
key, different close and volume. -/
def c1Bar1 : KlineRow :=
  { time := 19658, code := "600001.SH", open_px := 10, high := 11, low := 9,
    close := 10, volume := 1000, turnover := 10500 }

/-- Second bar for the C1 witness. -/
def c1Bar2 : KlineRow :=
  { time := 19658, code := "600001.SH", open_px := 10, high := 11, low := 9,
    close := 11, volume := 2000, turnover := 21000 }

/-- C1: upserting two DailyBars that share the `(trading day, instrument
code)` composite key but differ in field values leaves exactly one stored
row for that key — the rows matching the key are exactly `[b2]` — and its
open/high/low/close/volume/turnover fields all equal the second (later)
upsert's values; key uniqueness of the table is preserved. -/
theorem C1_upsert_last_write_wins (table : List KlineRow) (b1 b2 : KlineRow)
    (hu : uniqueKeys table) (hk : sameKey b1 b2 = true) (hne : b1 ≠ b2) :
    (bulk_upsert_daily_kline (bulk_upsert_daily_kline table [b1]) [b2]).filter
      (fun t => sameKey t b2) = [b2] ∧
    uniqueKeys (bulk_upsert_daily_kline (bulk_upsert_daily_kline table [b1]) [b2]) := by
  have h1 : bulk_upsert_daily_kline table [b1] = upsertRow table b1 := rfl
  have h2 : bulk_upsert_daily_kline (upsertRow table b1) [b2]
      = upsertRow (upsertRow table b1) b2 := rfl
  rw [h1, h2]
  have hu1 := uniqueKeys_upsertRow b1 hu
  exact ⟨filter_upsertRow b2 hu1, uniqueKeys_upsertRow b2 hu1⟩

/-- Witness for C1 at a concrete table and pair of conflicting bars. -/
theorem C1_upsert_last_write_wins_witness :
    uniqueKeys [] ∧ sameKey c1Bar1 c1Bar2 = true ∧ c1Bar1 ≠ c1Bar2 ∧
    (bulk_upsert_daily_kline (bulk_upsert_daily_kline [] [c1Bar1]) [c1Bar2]).filter
      (fun t => sameKey t c1Bar2) = [c1Bar2] := by
  have hne : c1Bar1 ≠ c1Bar2 := fun h =>
    absurd (congrArg KlineRow.volume h) (by decide)
  exact ⟨List.Pairwise.nil, rfl, hne,
    (C1_upsert_last_write_wins [] c1Bar1 c1Bar2 List.Pairwise.nil rfl hne).1⟩


/-! ## Claim C2 -/

/-- The record loop of `sync_to_db` keeps exactly the mapped rows of the
successfully parsed quotes, in order. -/
theorem syncRows_eq (values : List CacheValue) :
    syncRows values = values.filterMap (fun v =>
      match v with
      | .quote q => some (toKlineItem q)
      | _ => none) := by
  have go : ∀ (vs : List CacheValue) (acc : List KlineRow),
      vs.foldl (fun kline_data v =>
        match v with
        | CacheValue.nullVal => kline_data
        | CacheValue.malformed => kline_data
        | CacheValue.quote q => kline_data ++ [toKlineItem q]) acc
      = acc ++ vs.filterMap (fun v =>
          match v with
          | CacheValue.quote q => some (toKlineItem q)
          | _ => none) := by
    intro vs
    induction vs with
    | nil => intro acc; simp
    | cons v rest ih =>
      intro acc
      cases v <;> simp [ih, List.filterMap_cons]
  exact (go values []).trans (by simp)

/-- C2 (amended): every Snapshot drained by the reconciler yields a row in
the upsert batch keyed by its day-truncated timestamp and instrument code
(the time of day within `q` is discarded — the row has no trace of it);
close is the Snapshot's last price; open/high/low/turnover pass through
unchanged; volume goes through Python `int(...)`, i.e. truncation toward
zero, instead of passing through unchanged. -/
theorem C2_reconciler_mapping (values : List CacheValue) (q : CachedQuote)
    (h : CacheValue.quote q ∈ values) :
    ({ time := q.day, code := q.code, open_px := q.open_px, high := q.high,
       low := q.low, close := q.price, volume := pyInt q.volume,
       turnover := q.turnover } : KlineRow) ∈ syncRows values := by
  rw [syncRows_eq]
  exact List.mem_filterMap.mpr ⟨CacheValue.quote q, h, rfl⟩

/-- Witness for C2 at a one-snapshot drain. -/
theorem C2_reconciler_mapping_witness :
    CacheValue.quote
        { day := 19658, secondsOfDay := 52200, code := "600001.SH",
          open_px := 10, high := 11, low := 9, price := 10, volume := 1000,
          turnover := 10500 }
      ∈ [CacheValue.quote
        { day := 19658, secondsOfDay := 52200, code := "600001.SH",
          open_px := 10, high := 11, low := 9, price := 10, volume := 1000,
          turnover := 10500 }] ∧
    ({ time := 19658, code := "600001.SH", open_px := 10, high := 11,
       low := 9, close := 10,
       volume := pyInt (1000 : ℚ), turnover := 10500 } : KlineRow)
      ∈ syncRows [CacheValue.quote
        { day := 19658, secondsOfDay := 52200, code := "600001.SH",
          open_px := 10, high := 11, low := 9, price := 10, volume := 1000,
          turnover := 10500 }] :=
  ⟨List.mem_singleton.mpr rfl,
   C2_reconciler_mapping _ _ (List.mem_singleton.mpr rfl)⟩

/-- The Snapshot refuting the original C2: its cumulative volume is the
non-integer 3/2. -/
def c2Quote : CachedQuote :=
  { day := 19658, secondsOfDay := 52200, code := "600001.SH",
    open_px := 10, high := 11, low := 9,
    price := ⟨21, 2, by decide, by decide⟩,
    volume := ⟨3, 2, by decide, by decide⟩, turnover := 10500 }

/-- Counterexample to C2 as stated: the reconciler stores volume `1` for a
Snapshot whose volume is `3/2` — the volume field does not pass through
unchanged (it is truncated by `int(float(...))`). -/
theorem C2_counterexample :
    syncRows [CacheValue.quote c2Quote]
      = [{ time := 19658, code := "600001.SH", open_px := 10, high := 11,
           low := 9, close := ⟨21, 2, by decide, by decide⟩, volume := 1,
           turnover := 10500 }] ∧
    ((1 : ℤ) : ℚ) ≠ c2Quote.volume := by
  exact ⟨by decide, by decide⟩


/-! ## Claim C3 -/

/-- Under the amended hypotheses (identifier does not start with `4`/`8`)
the inferred venue is `sh` or `sz`, never `bj`. -/
theorem get_market_type_sh_or_sz {c : List Char}
    (h4 : c.head? ≠ some '4') (h8 : c.head? ≠ some '8') :
    get_market_type c = ['s', 'h'] ∨ get_market_type c = ['s', 'z'] := by
  rw [get_market_type]
  by_cases h6 : c.head? = some '6'
  · left; rw [if_pos h6]
  · rw [if_neg h6]
    by_cases h03 : c.head? = some '0' ∨ c.head? = some '3'
    · right; rw [if_pos h03]
    · rw [if_neg h03, if_neg (by rintro (h | h); exact h8 h; exact h4 h)]
      right; rfl

theorem get_clean_code_pre_sh {c : List Char}
    (hd : ∀ ch ∈ c, isDigitChar ch = true) :
    get_clean_code (['s', 'h'] ++ c) = c := by
  rw [get_clean_code, pyLower_concrete_append hd ['s', 'h'],
    show pyLower ['s', 'h'] = ['s', 'h'] from by decide]
  exact chain_pre_sh hd

theorem get_clean_code_pre_sz {c : List Char}
    (hd : ∀ ch ∈ c, isDigitChar ch = true) :
    get_clean_code (['s', 'z'] ++ c) = c := by
  rw [get_clean_code, pyLower_concrete_append hd ['s', 'z'],
    show pyLower ['s', 'z'] = ['s', 'z'] from by decide]
  exact chain_pre_sz hd

theorem get_clean_code_pre_SH {c : List Char}
    (hd : ∀ ch ∈ c, isDigitChar ch = true) :
    get_clean_code (['S', 'H'] ++ c) = c := by
  rw [get_clean_code, pyLower_concrete_append hd ['S', 'H'],
    show pyLower ['S', 'H'] = ['s', 'h'] from by decide]
  exact chain_pre_sh hd

theorem get_clean_code_pre_SZ {c : List Char}
    (hd : ∀ ch ∈ c, isDigitChar ch = true) :
    get_clean_code (['S', 'Z'] ++ c) = c := by
  rw [get_clean_code, pyLower_concrete_append hd ['S', 'Z'],
    show pyLower ['S', 'Z'] = ['s', 'z'] from by decide]
  exact chain_pre_sz hd

theorem get_clean_code_dot_sh {c : List Char}
    (hd : ∀ ch ∈ c, isDigitChar ch = true) :
    get_clean_code (['s', 'h'] ++ '.' :: c) = c := by
  show get_clean_code (['s', 'h', '.'] ++ c) = c
  rw [get_clean_code, pyLower_concrete_append hd ['s', 'h', '.'],
    show pyLower ['s', 'h', '.'] = ['s', 'h', '.'] from by decide]
  exact chain_dot_sh hd

theorem get_clean_code_dot_sz {c : List Char}
    (hd : ∀ ch ∈ c, isDigitChar ch = true) :
    get_clean_code (['s', 'z'] ++ '.' :: c) = c := by
  show get_clean_code (['s', 'z', '.'] ++ c) = c
  rw [get_clean_code, pyLower_concrete_append hd ['s', 'z', '.'],
    show pyLower ['s', 'z', '.'] = ['s', 'z', '.'] from by decide]
  exact chain_dot_sz hd

theorem get_clean_code_suf_SH {c : List Char}
    (hd : ∀ ch ∈ c, isDigitChar ch = true) :
    get_clean_code (c ++ ['.', 'S', 'H']) = c := by
  rw [get_clean_code, pyLower_append_concrete hd ['.', 'S', 'H'],
    show pyLower ['.', 'S', 'H'] = ['.', 's', 'h'] from by decide]
  exact chain_suf_sh hd

theorem get_clean_code_suf_SZ {c : List Char}
    (hd : ∀ ch ∈ c, isDigitChar ch = true) :
    get_clean_code (c ++ ['.', 'S', 'Z']) = c := by
  rw [get_clean_code, pyLower_append_concrete hd ['.', 'S', 'Z'],
    show pyLower ['.', 'S', 'Z'] = ['.', 's', 'z'] from by decide]
  exact chain_suf_sz hd

/-- Counterexample to C3 as stated: for the Beijing-venue identifier
`430047`, the Tencent spelling produced by the code is `bj430047`, and
`normalize` does not strip the `bj` marker, so it does not recover the
canonical code (and the round trip fails). -/
theorem C3_counterexample :
    get_clean_code (to_tencent_code (String.toList "430047"))
      = String.toList "bj430047" ∧
    String.toList "bj430047" ≠ String.toList "430047" := by
  exact ⟨by decide, by decide⟩

/-- C3 (amended): for every all-digit identifier that is not on the
Beijing venue (leading digit not `4`/`8`) and every supported provider
spelling, `normalize` recovers the identical canonical code, and applying
`toProviderForm` to it reproduces the provider's original spelling
exactly. -/
theorem C3_roundtrip (c : List Char) (hd : ∀ ch ∈ c, isDigitChar ch = true)
    (h4 : c.head? ≠ some '4') (h8 : c.head? ≠ some '8') (p : Provider) :
    get_clean_code (toProviderForm p c) = c ∧
    toProviderForm p (get_clean_code (toProviderForm p c)) = toProviderForm p c := by
  have hclean : get_clean_code c = c := get_clean_code_digits hd
  have hmkt := get_market_type_sh_or_sz h4 h8
  have h₁ : get_clean_code (toProviderForm p c) = c := by
    cases p
    case baostock =>
      show get_clean_code (to_baostock_code c) = c
      rw [to_baostock_code]
      rcases hmkt with hm | hm <;> rw [hclean, hm]
      · exact get_clean_code_dot_sh hd
      · exact get_clean_code_dot_sz hd
    case tencent =>
      show get_clean_code (to_tencent_code c) = c
      rw [to_tencent_code]
      rcases hmkt with hm | hm <;> rw [hclean, hm]
      · exact get_clean_code_pre_sh hd
      · exact get_clean_code_pre_sz hd
    case eastmoneyWeb =>
      show get_clean_code (to_eastmoney_web_code c) = c
      rw [to_eastmoney_web_code]
      rcases hmkt with hm | hm <;> rw [hclean, hm]
      · rw [show pyUpper ['s', 'h'] = ['S', 'H'] from by decide]
        exact get_clean_code_pre_SH hd
      · rw [show pyUpper ['s', 'z'] = ['S', 'Z'] from by decide]
        exact get_clean_code_pre_SZ hd
    case eastmoney =>
      show get_clean_code (to_eastmoney_code c) = c
      rw [to_eastmoney_code]
      rcases hmkt with hm | hm <;> rw [hclean, hm]
      · rw [show pyUpper ['s', 'h'] = ['S', 'H'] from by decide]
        exact get_clean_code_suf_SH hd
      · rw [show pyUpper ['s', 'z'] = ['S', 'Z'] from by decide]
        exact get_clean_code_suf_SZ hd
    case numeric =>
      show get_clean_code (get_clean_code c) = c
      rw [hclean]
      exact hclean
  exact ⟨h₁, by rw [h₁]⟩

/-- Witness for C3 at the canonical Shanghai code `600000` and the Tencent
provider. -/
theorem C3_roundtrip_witness :
    (∀ ch ∈ String.toList "600000", isDigitChar ch = true) ∧
    (String.toList "600000").head? ≠ some '4' ∧
    (String.toList "600000").head? ≠ some '8' ∧
    get_clean_code (toProviderForm Provider.tencent (String.toList "600000"))
      = String.toList "600000" :=
  ⟨by decide, by decide, by decide,
   (C3_roundtrip (String.toList "600000") (by decide) (by decide) (by decide)
     Provider.tencent).1⟩


/-! ## Claim C4 -/

theorem toNat_ofNat_valid {n : Nat} (h : n.isValidChar) :
    (Char.ofNat n).toNat = n := by
  rw [Char.ofNat, dif_pos h]
  simp [Char.ofNatAux, Char.toNat, UInt32.toNat, BitVec.toNat_ofNatLt]

/-- Lower-casing never conjures a digit. -/
theorem pyLowerChar_not_digit {c : Char} (h : isDigitChar c = false) :
    isDigitChar (pyLowerChar c) = false := by
  rw [pyLowerChar]
  by_cases hc : 'A' ≤ c ∧ c ≤ 'Z'
  · rw [if_pos hc]
    obtain ⟨h1, h2⟩ := hc
    have hb1 : 65 ≤ c.toNat := h1
    have hb2 : c.toNat ≤ 90 := h2
    have hv : (c.toNat + 32).isValidChar := Or.inl (by omega)
    have ht : (Char.ofNat (c.toNat + 32)).toNat = c.toNat + 32 := toNat_ofNat_valid hv
    have hd9 : ¬ (Char.ofNat (c.toNat + 32) ≤ '9') := by
      intro hle
      have : (Char.ofNat (c.toNat + 32)).toNat ≤ 57 := hle
      omega
    rw [isDigitChar, decide_eq_false hd9, Bool.and_false]
  · rw [if_neg hc]
    exact h

/-- Counterexample to C4 as stated: on the digit-free raw string `abc`,
`normalize` does not fail — it returns the string itself, which contains
no numeric identifier, as the canonical code; there is no
`InvalidCodeFormat` error anywhere in the code. -/
theorem C4_counterexample :
    get_clean_code (String.toList "abc") = String.toList "abc" ∧
    (∀ ch ∈ String.toList "abc", isDigitChar ch = false) :=
  ⟨by decide, by decide⟩

/-- C4 (amended): `normalize` is a total function that never raises; on a
raw string containing no parseable numeric identifier it returns the
decoration-stripped residue — itself containing no digits (empty for the
empty input) — as the canonical code, rather than failing with an
`InvalidCodeFormat` error. -/
theorem C4_normalize_never_fails (s : List Char)
    (h : ∀ ch ∈ s, isDigitChar ch = false) :
    ∀ ch ∈ get_clean_code s, isDigitChar ch = false := by
  intro ch hch
  rw [get_clean_code] at hch
  have h1 := pyReplace_subset ['.'] _ hch
  have h2 := pyReplace_subset ['s', 'z'] _ h1
  have h3 := pyReplace_subset ['s', 'h'] _ h2
  obtain ⟨c0, hc0, rfl⟩ := List.mem_map.mp h3
  exact pyLowerChar_not_digit (h c0 hc0)

/-- Witness for C4 (amended) at the digit-free raw string `abc`. -/
theorem C4_normalize_never_fails_witness :
    (∀ ch ∈ String.toList "abc", isDigitChar ch = false) ∧
    (∀ ch ∈ get_clean_code (String.toList "abc"), isDigitChar ch = false) :=
  ⟨by decide, C4_normalize_never_fails (String.toList "abc") (by decide)⟩


/-! ## Claim C5 -/

/-- C5: the fallback chain invokes sources strictly in priority order and
returns the result of the first source that comes back non-empty and
non-error; sources that raise or return empty-but-successful are passed
over, an earlier source's failure is never surfaced (the result is the
first non-empty success no matter how the earlier sources failed), and
when every source fails or returns empty the chain returns an empty
result without raising. -/
theorem C5_fallback_first_nonempty {α : Type} (pre post : List (Except Unit (List α)))
    (l : List α)
    (hpre : ∀ r ∈ pre, r = Except.error () ∨ r = Except.ok ([] : List α))
    (hl : l ≠ []) :
    fallbackExecute (pre ++ Except.ok l :: post) = l ∧
    (∀ rs : List (Except Unit (List α)),
      (∀ r ∈ rs, r = Except.error () ∨ r = Except.ok ([] : List α)) →
      fallbackExecute rs = []) := by
  have hle : l.isEmpty = false := by
    cases l with
    | nil => exact absurd rfl hl
    | cons a t => rfl
  constructor
  · induction pre with
    | nil =>
      show fallbackExecute (Except.ok l :: post) = l
      simp [fallbackExecute, hle]
    | cons r rest ih =>
      rcases hpre r (List.mem_cons_self r rest) with rfl | rfl
      · show fallbackExecute (Except.error () :: (rest ++ Except.ok l :: post)) = l
        rw [show fallbackExecute (Except.error () :: (rest ++ Except.ok l :: post))
            = fallbackExecute (rest ++ Except.ok l :: post) from rfl]
        exact ih (fun r h => hpre r (List.mem_cons_of_mem _ h))
      · show fallbackExecute (Except.ok [] :: (rest ++ Except.ok l :: post)) = l
        rw [show fallbackExecute (Except.ok ([] : List α) :: (rest ++ Except.ok l :: post))
            = fallbackExecute (rest ++ Except.ok l :: post) from rfl]
        exact ih (fun r h => hpre r (List.mem_cons_of_mem _ h))
  · intro rs
    induction rs with
    | nil => intro _; rfl
    | cons r rest ih =>
      intro hrs
      rcases hrs r (List.mem_cons_self r rest) with rfl | rfl
      · rw [show fallbackExecute (Except.error () :: rest) = fallbackExecute rest from rfl]
        exact ih (fun r h => hrs r (List.mem_cons_of_mem _ h))
      · rw [show fallbackExecute (Except.ok ([] : List α) :: rest)
            = fallbackExecute rest from rfl]
        exact ih (fun r h => hrs r (List.mem_cons_of_mem _ h))

/-- Witness for C5: the first source errors, the second is empty, the
third returns one record; the chain returns exactly that record. -/
theorem C5_fallback_first_nonempty_witness :
    (∀ r ∈ [Except.error (), Except.ok ([] : List Nat)],
      r = Except.error () ∨ r = Except.ok ([] : List Nat)) ∧
    ([5] : List Nat) ≠ [] ∧
    fallbackExecute
      ([Except.error (), Except.ok []] ++ Except.ok [5] :: [Except.ok [7]]) = [5] := by
  have hpre : ∀ r ∈ [Except.error (), Except.ok ([] : List Nat)],
      r = Except.error () ∨ r = Except.ok ([] : List Nat) := by
    intro r h
    rcases List.mem_cons.mp h with rfl | h
    · exact Or.inl rfl
    · rcases List.mem_cons.mp h with rfl | h
      · exact Or.inr rfl
      · simp at h
  exact ⟨hpre, by decide,
    (C5_fallback_first_nonempty [Except.error (), Except.ok []] [Except.ok [7]] [5]
      hpre (by decide)).1⟩


/-! ## Claim C6 -/

/-- The chunk loop accumulates exactly the successful chunks' records, in
chunk order, with an erroring chunk contributing nothing. -/
theorem fetch_realtime_quotes_eq (codes : List String)
    (fetchBatch : List String → Except Unit (List SinaItem)) :
    fetch_realtime_quotes codes fetchBatch
      = ((makeChunks codes).map (fun ch =>
          match fetchBatch ch with
          | Except.ok data => data
          | Except.error _ => [])).flatten := by
  rw [fetch_realtime_quotes]
  have go : ∀ (chs : List (List String)) (acc : List SinaItem),
      chs.foldl (fun all_data batch =>
        match fetchBatch batch with
        | Except.ok data => all_data ++ data
        | Except.error _ => all_data) acc
      = acc ++ (chs.map (fun ch =>
          match fetchBatch ch with
          | Except.ok data => data
          | Except.error _ => [])).flatten := by
    intro chs
    induction chs with
    | nil => intro acc; simp
    | cons ch rest ih =>
      intro acc
      cases hf : fetchBatch ch <;> simp [hf, ih]
  exact (go _ []).trans (by simp)

/-- A key already present stays present through a grouped Cache write. -/
theorem pushToRedis_preserves_isSome (snaps : List SinaItem) :
    ∀ (cache : String → Option SinaItem) (k : String),
      (cache k).isSome = true → (pushToRedis snaps cache k).isSome = true := by
  induction snaps with
  | nil => intro cache k h; exact h
  | cons s rest ih =>
    intro cache k h
    show (pushToRedis rest
      (fun k' => if k' = "quote:" ++ s.code then some s else cache k') k).isSome = true
    apply ih
    by_cases hk : k = "quote:" ++ s.code <;> simp [hk, h]

/-- Every written snapshot ends up with a Cache entry under its
`quote:<code>` key. -/
theorem pushToRedis_mem_isSome (snaps : List SinaItem) :
    ∀ (cache : String → Option SinaItem) (item : SinaItem), item ∈ snaps →
      (pushToRedis snaps cache ("quote:" ++ item.code)).isSome = true := by
  induction snaps with
  | nil => intro _ _ h; simp at h
  | cons s rest ih =>
    intro cache item h
    rcases List.mem_cons.mp h with rfl | hmem
    · show (pushToRedis rest
        (fun k' => if k' = "quote:" ++ item.code then some item else cache k')
        ("quote:" ++ item.code)).isSome = true
      apply pushToRedis_preserves_isSome
      simp
    · exact ih _ item hmem

/-- C6: a poll cycle whose chunk partition contains exactly one failing
chunk still completes; its merged output is exactly the concatenation of
the other chunks' records (only the failed chunk's instruments are
absent), and every instrument returned by a successful chunk receives a
Cache entry under its `quote:` key. -/
theorem C6_chunk_failure_isolated (codes : List String)
    (fetchBatch : List String → Except Unit (List SinaItem))
    (pre post : List (List String)) (bad : List String)
    (cache : String → Option SinaItem)
    (hchunks : makeChunks codes = pre ++ bad :: post)
    (hbad : fetchBatch bad = Except.error ())
    (hok : ∀ ch ∈ pre ++ post, ∃ data, fetchBatch ch = Except.ok data) :
    fetch_realtime_quotes codes fetchBatch
      = ((pre ++ post).map (fun ch =>
          match fetchBatch ch with
          | Except.ok data => data
          | Except.error _ => [])).flatten ∧
    (∀ ch ∈ pre ++ post, ∀ data, fetchBatch ch = Except.ok data →
      ∀ item ∈ data,
        (pollCycle codes fetchBatch cache ("quote:" ++ item.code)).isSome = true) := by
  have h1 : fetch_realtime_quotes codes fetchBatch
      = ((pre ++ post).map (fun ch =>
          match fetchBatch ch with
          | Except.ok data => data
          | Except.error _ => [])).flatten := by
    rw [fetch_realtime_quotes_eq, hchunks]
    simp [hbad]
  refine ⟨h1, ?_⟩
  intro ch hch data hdata item hitem
  have hmem : item ∈ fetch_realtime_quotes codes fetchBatch := by
    rw [h1]
    refine List.mem_flatten.mpr ⟨data, ?_, hitem⟩
    refine List.mem_map.mpr ⟨ch, hch, ?_⟩
    rw [hdata]
  have hne : fetch_realtime_quotes codes fetchBatch ≠ [] := by
    intro h0
    rw [h0] at hmem
    simp at hmem
  show ((if fetch_realtime_quotes codes fetchBatch = [] then cache
      else pushToRedis (fetch_realtime_quotes codes fetchBatch) cache)
      ("quote:" ++ item.code)).isSome = true
  rw [if_neg hne]
  exact pushToRedis_mem_isSome _ cache item hmem

/-- The 81-instrument universe used to witness C6 (two chunks of the
80-wide batching). -/
def c6Codes : List String := List.replicate 80 "sh600000" ++ ["sz000001"]

/-- First chunk (fails in the witness scenario). -/
def c6Bad : List String := List.replicate 80 "sh600000"

/-- Second chunk (succeeds in the witness scenario). -/
def c6Good : List String := ["sz000001"]

/-- The one record the successful chunk returns. -/
def c6Item : SinaItem :=
  { code := "000001.SZ", name := "PAB", price := 10, open_px := 10,
    pre_close := 0, high := 11, low := 9, volume := 1000, turnover := 10500,
    time := "2023-10-27 14:30:00",
    bid1_vol := 0, bid1 := 0, bid2_vol := 0, bid2 := 0, bid3_vol := 0,
    bid3 := 0, bid4_vol := 0, bid4 := 0, bid5_vol := 0, bid5 := 0,
    ask1_vol := 0, ask1 := 0, ask2_vol := 0, ask2 := 0, ask3_vol := 0,
    ask3 := 0, ask4_vol := 0, ask4 := 0, ask5_vol := 0, ask5 := 0,
    change_pct := 0 }

/-- The injected per-chunk fetch outcome for the C6 witness: the first
chunk errors, the second returns one record. -/
def c6Fetch (ch : List String) : Except Unit (List SinaItem) :=
  if ch = c6Good then Except.ok [c6Item] else Except.error ()

/-- Witness for C6 on a concrete two-chunk universe with one failing
chunk. -/
theorem C6_chunk_failure_isolated_witness :
    makeChunks c6Codes = [] ++ c6Bad :: [c6Good] ∧
    c6Fetch c6Bad = Except.error () ∧
    (∀ ch ∈ ([] : List (List String)) ++ [c6Good],
      ∃ data, c6Fetch ch = Except.ok data) ∧
    (pollCycle c6Codes c6Fetch (fun _ => none) ("quote:" ++ c6Item.code)).isSome
      = true := by
  have hchunks : makeChunks c6Codes = [] ++ c6Bad :: [c6Good] := by decide
  have hbad : c6Fetch c6Bad = Except.error () := by rfl
  have hok : ∀ ch ∈ ([] : List (List String)) ++ [c6Good],
      ∃ data, c6Fetch ch = Except.ok data := by
    intro ch hch
    rcases List.mem_cons.mp hch with rfl | hch
    · exact ⟨[c6Item], rfl⟩
    · simp at hch
  refine ⟨hchunks, hbad, hok, ?_⟩
  exact (C6_chunk_failure_isolated c6Codes c6Fetch [] [c6Good] c6Bad (fun _ => none)
    hchunks hbad hok).2 c6Good (by simp) [c6Item] rfl c6Item (by simp)


/-! ## Claim C7 -/

/-- The line loop of `_fetch_batch_sina` returns exactly the successful
parses, in order. -/
theorem fetchBatchSina_eq (lines : List SinaLine) :
    fetchBatchSina lines = lines.filterMap parseSinaLine := by
  have go : ∀ (ls : List SinaLine) (acc : List SinaItem),
      ls.foldl (fun results line =>
        match parseSinaLine line with
        | some item => results ++ [item]
        | none => results) acc
      = acc ++ ls.filterMap parseSinaLine := by
    intro ls
    induction ls with
    | nil => intro acc; simp
    | cons l rest ih =>
      intro acc
      cases hp : parseSinaLine l <;> simp [hp, ih, List.filterMap_cons]
  exact (go _ []).trans (by simp)

/-- C7 (amended): a record that fails numeric parsing or is structurally
invalid is dropped from the result set — leaving no trace, not even a
count — while the adapter/reconciler never raises and every other record
of the batch is still processed and returned.  Stated for both the Sina
batch adapter and the reconciliation batch. -/
theorem C7_record_drop_no_abort (pre post : List SinaLine) (bad : SinaLine)
    (hbad : parseSinaLine bad = none) (vpre vpost : List CacheValue) :
    fetchBatchSina (pre ++ bad :: post) = fetchBatchSina (pre ++ post) ∧
    (∀ l ∈ pre ++ post, ∀ s, parseSinaLine l = some s →
      s ∈ fetchBatchSina (pre ++ bad :: post)) ∧
    syncRows (vpre ++ CacheValue.malformed :: vpost) = syncRows (vpre ++ vpost) ∧
    (∀ q, CacheValue.quote q ∈ vpre ++ vpost →
      toKlineItem q ∈ syncRows (vpre ++ CacheValue.malformed :: vpost)) := by
  refine ⟨?_, ?_, ?_, ?_⟩
  · rw [fetchBatchSina_eq, fetchBatchSina_eq]
    simp [List.filterMap_append, List.filterMap_cons, hbad]
  · intro l hl s hs
    rw [fetchBatchSina_eq]
    refine List.mem_filterMap.mpr ⟨l, ?_, hs⟩
    rcases List.mem_append.mp hl with h | h
    · exact List.mem_append.mpr (Or.inl h)
    · exact List.mem_append.mpr (Or.inr (List.mem_cons_of_mem _ h))
  · rw [syncRows_eq, syncRows_eq]
    simp [List.filterMap_append, List.filterMap_cons]
  · intro q hq
    rw [syncRows_eq]
    refine List.mem_filterMap.mpr ⟨CacheValue.quote q, ?_, rfl⟩
    rcases List.mem_append.mp hq with h | h
    · exact List.mem_append.mpr (Or.inl h)
    · exact List.mem_append.mpr (Or.inr (List.mem_cons_of_mem _ h))

/-- A well-formed numeric wire field for the C7 lines. -/
def c7Tok (n : ℚ) : FieldTok := { raw := "", val := some n }

/-- A Sina line that parses cleanly (32 fields, all numeric ones parse). -/
def c7GoodLine : SinaLine :=
  { emptyData := false
    codeWithPrefix := "sh601006"
    fields := [{ raw := "DQRW", val := none }, c7Tok 1, c7Tok 0, c7Tok 3,
               c7Tok 4, c7Tok 5, c7Tok 0, c7Tok 0, c7Tok 6, c7Tok 7,
               c7Tok 0, c7Tok 0, c7Tok 0, c7Tok 0, c7Tok 0, c7Tok 0,
               c7Tok 0, c7Tok 0, c7Tok 0, c7Tok 0, c7Tok 0, c7Tok 0,
               c7Tok 0, c7Tok 0, c7Tok 0, c7Tok 0, c7Tok 0, c7Tok 0,
               c7Tok 0, c7Tok 0,
               { raw := "2023-10-27", val := none },
               { raw := "14:30:00", val := none }] }

/-- A Sina line whose price field fails `float(...)`: the record is
malformed. -/
def c7BadLine : SinaLine :=
  { emptyData := false
    codeWithPrefix := "sz000001"
    fields := [{ raw := "PAB", val := none }, c7Tok 1, c7Tok 0,
               { raw := "bad", val := none },
               c7Tok 4, c7Tok 5, c7Tok 0, c7Tok 0, c7Tok 6, c7Tok 7,
               c7Tok 0, c7Tok 0, c7Tok 0, c7Tok 0, c7Tok 0, c7Tok 0,
               c7Tok 0, c7Tok 0, c7Tok 0, c7Tok 0, c7Tok 0, c7Tok 0,
               c7Tok 0, c7Tok 0, c7Tok 0, c7Tok 0, c7Tok 0, c7Tok 0,
               c7Tok 0, c7Tok 0,
               { raw := "2023-10-27", val := none },
               { raw := "14:30:00", val := none }] }

/-- A cleanly parsed cache quote for the reconciler half of C7. -/
def c7Quote : CachedQuote :=
  { day := 19658, secondsOfDay := 52200, code := "601006.SH",
    open_px := 10, high := 11, low := 9, price := 10, volume := 1000,
    turnover := 10500 }

/-- Counterexample to C7 as stated (the "and counted" part): the batch
output with the malformed record present is identical to the output with
it absent — the loop state is only the result list, so nothing counts the
dropped record. -/
theorem C7_counterexample :
    parseSinaLine c7BadLine = none ∧
    fetchBatchSina [c7GoodLine, c7BadLine, c7GoodLine]
      = fetchBatchSina [c7GoodLine, c7GoodLine] ∧
    syncRows [CacheValue.quote c7Quote, CacheValue.malformed]
      = syncRows [CacheValue.quote c7Quote] :=
  ⟨rfl, rfl, rfl⟩

/-- Witness for C7 (amended) on concrete one-good-one-bad batches. -/
theorem C7_record_drop_no_abort_witness :
    parseSinaLine c7BadLine = none ∧
    fetchBatchSina [c7GoodLine, c7BadLine] = fetchBatchSina [c7GoodLine] ∧
    toKlineItem c7Quote ∈ syncRows [CacheValue.quote c7Quote, CacheValue.malformed] := by
  have hbad : parseSinaLine c7BadLine = none := rfl
  have H := C7_record_drop_no_abort [c7GoodLine] [] c7BadLine hbad
    [CacheValue.quote c7Quote] []
  exact ⟨hbad, H.1, H.2.2.2 c7Quote (by simp)⟩


/-! ## Claims C8 and C9 -/

/-- C8: `add_stock` writes the durable store first; when the durable write
fails it returns failure with the whole state — in particular the Cache
membership set — unchanged; on durable success it inserts-or-ignores into
the durable store and only then adds the code to the Cache set; and the
Cache is never modified unless the durable write succeeded. -/
theorem C8_add_durable_then_cache (st : WatchlistState) (stock_code : String)
    (cacheOk : Bool) :
    add_stock st stock_code false cacheOk = (st, false) ∧
    (stock_code ≠ "" →
      add_stock st stock_code true true
        = ({ db := add_watchlist_item st.db stock_code,
             cache := sadd st.cache stock_code }, true)) ∧
    (∀ dbOk cOk : Bool,
      (add_stock st stock_code dbOk cOk).1.cache ≠ st.cache → dbOk = true) := by
  have hfail : ∀ cOk : Bool, add_stock st stock_code false cOk = (st, false) := by
    intro cOk
    rw [add_stock]
    by_cases h : stock_code = ""
    · rw [if_pos h]
    · rw [if_neg h, if_pos rfl]
  refine ⟨hfail cacheOk, ?_, ?_⟩
  · intro h
    simp [add_stock, h]
  · intro dbOk cOk hne
    cases dbOk
    · exact absurd (by rw [hfail cOk]) hne
    · rfl

/-- Witness for C8 with an empty initial state and the code `600000`. -/
theorem C8_add_durable_then_cache_witness :
    add_stock { db := [], cache := [] } "600000" false true
      = ({ db := [], cache := [] }, false) ∧
    ("600000" : String) ≠ "" ∧
    add_stock { db := [], cache := [] } "600000" true true
      = ({ db := add_watchlist_item [] "600000",
           cache := sadd [] "600000" }, true) := by
  have H := C8_add_durable_then_cache { db := [], cache := [] } "600000" true
  exact ⟨H.1, by decide, H.2.1 (by decide)⟩

theorem mem_sadd_of_mem {s : List String} {x : String} (c : String)
    (h : x ∈ s) : x ∈ sadd s c := by
  rw [sadd]
  split
  · exact h
  · exact List.mem_append.mpr (Or.inl h)

theorem mem_sadd_self (s : List String) (c : String) : c ∈ sadd s c := by
  rw [sadd]
  split
  case isTrue h => exact h
  case isFalse h => exact List.mem_append.mpr (Or.inr (by simp))

theorem mem_saddAll {x : String} (codes : List String) :
    ∀ s : List String, x ∈ s ∨ x ∈ codes → x ∈ saddAll s codes := by
  induction codes with
  | nil =>
    intro s h
    rcases h with h | h
    · exact h
    · simp at h
  | cons c rest ih =>
    intro s h
    show x ∈ saddAll (sadd s c) rest
    rcases h with h | h
    · exact ih _ (Or.inl (mem_sadd_of_mem c h))
    · rcases List.mem_cons.mp h with rfl | h
      · exact ih _ (Or.inl (mem_sadd_self s x))
      · exact ih _ (Or.inr h)

/-- C9: a code present in the durable watchlist store survives a restart
that clears the Cache — the startup resync refills the Cache from the
durable store and `list()` returns it — and, independently of the startup
resync, a cold-cache `list()` falls back to the durable store, returns its
contents, and repairs the Cache by writing the set back. -/
theorem C9_watchlist_survives_restart (db : List String) (X : String)
    (hX : X ∈ db) :
    X ∈ (get_watchlist (restart db [])).2 ∧
    X ∈ (restart db []).cache ∧
    X ∈ (get_watchlist { db := db, cache := [] }).2 ∧
    X ∈ (get_watchlist { db := db, cache := [] }).1.cache := by
  have hdb : db ≠ [] := List.ne_nil_of_mem hX
  have hsync : restart db [] = { db := db, cache := saddAll [] db } := by
    rw [restart, sync_from_db, if_pos (show ({ db := db, cache := [] } :
      WatchlistState).db ≠ [] from hdb)]
  have hcacheX : X ∈ saddAll [] db := mem_saddAll db [] (Or.inr hX)
  have hcne : saddAll [] db ≠ [] := List.ne_nil_of_mem hcacheX
  refine ⟨?_, ?_, ?_, ?_⟩
  · rw [hsync, get_watchlist, if_pos (show ({ db := db, cache := saddAll [] db } :
      WatchlistState).cache ≠ [] from hcne)]
    exact hcacheX
  · rw [hsync]
    exact hcacheX
  · rw [get_watchlist,
      if_neg (show ¬ (({ db := db, cache := [] } : WatchlistState).cache ≠ []) from
        fun h => h rfl),
      if_pos (show ({ db := db, cache := [] } : WatchlistState).db ≠ [] from hdb)]
    exact hX
  · rw [get_watchlist,
      if_neg (show ¬ (({ db := db, cache := [] } : WatchlistState).cache ≠ []) from
        fun h => h rfl),
      if_pos (show ({ db := db, cache := [] } : WatchlistState).db ≠ [] from hdb)]
    exact hcacheX

/-- Witness for C9 with the one-entry durable store `["600000"]`. -/
theorem C9_watchlist_survives_restart_witness :
    ("600000" : String) ∈ ["600000"] ∧
    ("600000" : String) ∈ (get_watchlist (restart ["600000"] [])).2 :=
  ⟨by simp, (C9_watchlist_survives_restart ["600000"] "600000" (by simp)).1⟩


/-! ## Claim C10 -/

/-- Membership in the admission loop's output: a code is admitted exactly
when it is an `sh`-marked identifier starting with `6` or an `sz`-marked
identifier starting with `0`/`3` taken from the input frame. -/
theorem refreshStockList_mem (dfCodes : List (List Char)) (code : List Char) :
    code ∈ refreshStockList dfCodes ↔
      ∃ d ∈ dfCodes,
        (code = ['s', 'h'] ++ d ∧ d.head? = some '6') ∨
        (code = ['s', 'z'] ++ d ∧ (d.head? = some '0' ∨ d.head? = some '3')) := by
  have go : ∀ (ds : List (List Char)) (acc : List (List Char)),
      code ∈ ds.foldl (fun codes c =>
        if c.head? = some '6' then codes ++ [['s', 'h'] ++ c]
        else if c.head? = some '0' ∨ c.head? = some '3' then codes ++ [['s', 'z'] ++ c]
        else codes) acc ↔
      code ∈ acc ∨ ∃ d ∈ ds,
        (code = ['s', 'h'] ++ d ∧ d.head? = some '6') ∨
        (code = ['s', 'z'] ++ d ∧ (d.head? = some '0' ∨ d.head? = some '3')) := by
    intro ds
    induction ds with
    | nil => intro acc; simp
    | cons d rest ih =>
      intro acc
      by_cases h6 : d.head? = some '6'
      · rw [List.foldl_cons, if_pos h6, ih]
        simp only [List.mem_append, List.mem_singleton]
        constructor
        · rintro ((h | h) | ⟨d', hd', hcase⟩)
          · exact Or.inl h
          · exact Or.inr ⟨d, List.mem_cons_self d rest, Or.inl ⟨h, h6⟩⟩
          · exact Or.inr ⟨d', List.mem_cons_of_mem _ hd', hcase⟩
        · rintro (h | ⟨d', hd', hcase⟩)
          · exact Or.inl (Or.inl h)
          · rcases List.mem_cons.mp hd' with rfl | hd''
            · rcases hcase with ⟨he, _⟩ | ⟨he, hh⟩
              · exact Or.inl (Or.inr he)
              · rcases hh with hh | hh <;> rw [h6] at hh <;> simp at hh
            · exact Or.inr ⟨d', hd'', hcase⟩
      · by_cases h03 : d.head? = some '0' ∨ d.head? = some '3'
        · rw [List.foldl_cons, if_neg h6, if_pos h03, ih]
          simp only [List.mem_append, List.mem_singleton]
          constructor
          · rintro ((h | h) | ⟨d', hd', hcase⟩)
            · exact Or.inl h
            · exact Or.inr ⟨d, List.mem_cons_self d rest, Or.inr ⟨h, h03⟩⟩
            · exact Or.inr ⟨d', List.mem_cons_of_mem _ hd', hcase⟩
          · rintro (h | ⟨d', hd', hcase⟩)
            · exact Or.inl (Or.inl h)
            · rcases List.mem_cons.mp hd' with rfl | hd''
              · rcases hcase with ⟨_, hh⟩ | ⟨he, _⟩
                · rw [hh] at h6; simp at h6
                · exact Or.inl (Or.inr he)
              · exact Or.inr ⟨d', hd'', hcase⟩
        · rw [List.foldl_cons, if_neg h6, if_neg h03, ih]
          constructor
          · rintro (h | ⟨d', hd', hcase⟩)
            · exact Or.inl h
            · exact Or.inr ⟨d', List.mem_cons_of_mem _ hd', hcase⟩
          · rintro (h | ⟨d', hd', hcase⟩)
            · exact Or.inl h
            · rcases List.mem_cons.mp hd' with rfl | hd''
              · rcases hcase with ⟨_, hh⟩ | ⟨_, hh⟩
                · exact absurd hh h6
                · exact absurd hh h03
              · exact Or.inr ⟨d', hd'', hcase⟩
  rw [refreshStockList, go]
  simp

/-- C10: every code admitted into the poller's cached instrument universe
is `sh` + an identifier starting with `6` or `sz` + an identifier starting
with `0`/`3`; identifiers starting with `4` or `8` (the Beijing venue) are
silently excluded — no admitted code carries such an identifier — and the
hard-coded backup universe obeys the same shape, so the polled universe
never contains a Beijing instrument. -/
theorem C10_universe_excludes_beijing (dfCodes : List (List Char)) :
    (∀ code ∈ refreshStockList dfCodes,
      ∃ d ∈ dfCodes,
        (code = ['s', 'h'] ++ d ∧ d.head? = some '6') ∨
        (code = ['s', 'z'] ++ d ∧ (d.head? = some '0' ∨ d.head? = some '3'))) ∧
    (∀ d ∈ dfCodes, (d.head? = some '4' ∨ d.head? = some '8') →
      ∀ code ∈ refreshStockList dfCodes, code.drop 2 ≠ d) ∧
    (∀ code ∈ backupCodes,
      ∃ d, (code = ['s', 'h'] ++ d ∧ d.head? = some '6') ∨
        (code = ['s', 'z'] ++ d ∧ (d.head? = some '0' ∨ d.head? = some '3'))) := by
  refine ⟨?_, ?_, ?_⟩
  · intro code hcode
    exact (refreshStockList_mem dfCodes code).mp hcode
  · intro d _ hd48 code hcode
    obtain ⟨d', _, hcase⟩ := (refreshStockList_mem dfCodes code).mp hcode
    rcases hcase with ⟨rfl, hh⟩ | ⟨rfl, hh⟩
    · intro heq
      have : d' = d := by simpa using heq
      subst this
      rcases hd48 with h | h <;> rw [hh] at h <;> simp at h
    · intro heq
      have : d' = d := by simpa using heq
      subst this
      rcases hd48 with h | h <;> rcases hh with hh | hh <;> rw [hh] at h <;> simp at h
  · intro code hcode
    rcases List.mem_cons.mp hcode with rfl | hcode
    · exact ⟨String.toList "600519", Or.inl ⟨by decide, by decide⟩⟩
    rcases List.mem_cons.mp hcode with rfl | hcode
    · exact ⟨String.toList "000001", Or.inr ⟨by decide, Or.inl (by decide)⟩⟩
    rcases List.mem_cons.mp hcode with rfl | hcode
    · exact ⟨String.toList "300750", Or.inr ⟨by decide, Or.inr (by decide)⟩⟩
    rcases List.mem_cons.mp hcode with rfl | hcode
    · exact ⟨String.toList "601318", Or.inl ⟨by decide, by decide⟩⟩
    · simp at hcode

/-- Witness for C10 on a four-identifier frame containing one Beijing
identifier of each leading digit. -/
theorem C10_universe_excludes_beijing_witness :
    refreshStockList [String.toList "600519", String.toList "000001",
        String.toList "430047", String.toList "830799"]
      = [String.toList "sh600519", String.toList "sz000001"] ∧
    (String.toList "430047").head? = some '4' ∧
    (∀ code ∈ refreshStockList [String.toList "600519", String.toList "000001",
        String.toList "430047", String.toList "830799"],
      code.drop 2 ≠ String.toList "430047") := by
  refine ⟨by decide, by decide, ?_⟩
  exact (C10_universe_excludes_beijing [String.toList "600519",
    String.toList "000001", String.toList "430047",
    String.toList "830799"]).2.1 (String.toList "430047") (by decide)
    (Or.inl (by decide))

end PGAnlize
